import Mathlib

/-!
Verification of the Promptober calendar widget (single-file React component,
IndexedDB persistence).  The definitions below are a shallow embedding of the
component's data model and of the functions relevant to the claims:
the `days` / `images` / `urls` IndexedDB collections, the tweet-image
resolution pipeline (`handleTweetFetch` with its cache / oEmbed / proxy /
known-tweet fallback chain), the media-URL regex scraper
(`fetchTweetImagesViaProxy`), manual-URL parsing, import/export, the
auto-completion edge-trigger effect, and the clear-cache button handler.
Network and DOM effects are represented by explicit data inputs (the response
body a proxy returned, the image list extracted from the oEmbed HTML), and
IndexedDB collections are represented as lists of records upserted by their
key path, mirroring `store.put` / `store.get` / `store.clear`.
-/

namespace Promptober

/-- One year in milliseconds: the fixed cache TTL
`365 * 24 * 60 * 60 * 1000` used by both cache readers. -/
def YEAR_MS : Nat := 365 * 24 * 60 * 60 * 1000

/-- A record of the `days` object store (key path `id`).
`blob`-free pure data; `tweetUrl` is the user-supplied source post URL. -/
structure DayRecord where
  id : String
  year : Nat
  day : Nat
  done : Bool
  tweetUrl : String
  manualImageUrls : List String
deriving Repr, DecidableEq

/-- The `days` IndexedDB object store, keyed by `DayRecord.id`. -/
abbrev Store := List DayRecord

/-- `idFor(year, day)`: the deterministic day key, the string
year ++ "-10-" ++ day (October is the fixed month). -/
def idFor (year day : Nat) : String :=
  toString year ++ "-10-" ++ toString day

/-- `store.put` on the `days` store: upsert by the `id` key path.
Replaces the record with the same id, or appends when the key is new. -/
def putDay : Store → DayRecord → Store
  | [], r => [r]
  | x :: xs, r => if x.id = r.id then r :: xs else x :: putDay xs r

/-- `setDay(state)`: persist one day record (a `put` on the `days` store). -/
def setDay (s : Store) (r : DayRecord) : Store :=
  putDay s r

/-- `store.get(id)` on the `days` store. -/
def getDayById (s : Store) (i : String) : Option DayRecord :=
  s.find? (fun r => r.id == i)

/-- `getDay(year, day)`: fetch the record keyed by `idFor(year, day)`. -/
def getDay (s : Store) (year day : Nat) : Option DayRecord :=
  getDayById s (idFor year day)

/-- `getAllDays()`: `store.getAll()` on the `days` store. -/
def getAllDays (s : Store) : List DayRecord :=
  s

/-- An entry of the `images` object store (key path `url`).
The binary blob payload is abstracted to a `Nat` tag; a stored JS `Blob`
object is always truthy, so the `result.blob` check of the reader is
always satisfied by a present entry. -/
structure ImageCacheEntry where
  url : String
  blob : Nat
  timestamp : Nat
deriving Repr, DecidableEq

/-- The `images` IndexedDB object store, keyed by `url`. -/
abbrev ImageCache := List ImageCacheEntry

/-- Upsert into the `images` store by the `url` key path. -/
def putImageEntry : ImageCache → ImageCacheEntry → ImageCache
  | [], e => [e]
  | x :: xs, e => if x.url = e.url then e :: xs else x :: putImageEntry xs e

/-- `saveImageToCache(url, blob)`: `put { url, blob, timestamp: Date.now() }`. -/
def saveImageToCache (c : ImageCache) (url : String) (blob : Nat) (now : Nat) :
    ImageCache :=
  putImageEntry c ⟨url, blob, now⟩

/-- `getImageFromCache(url)`: read the entry keyed by `url`; an entry whose
timestamp is older than one year is reported as absent (`null`), but the
read performs no write, so the second component (the store after the
readonly transaction) is unchanged. -/
def getImageFromCache (c : ImageCache) (url : String) (now : Nat) :
    Option Nat × ImageCache :=
  (match c.find? (fun e => e.url == url) with
   | some e => if now - e.timestamp > YEAR_MS then none else some e.blob
   | none => none,
   c)

/-- An entry of the `urls` object store (key path `tweetUrl`). -/
structure UrlsCacheEntry where
  tweetUrl : String
  imageUrls : List String
  timestamp : Nat
deriving Repr, DecidableEq

/-- The `urls` IndexedDB object store, keyed by `tweetUrl`. -/
abbrev UrlsCache := List UrlsCacheEntry

/-- Upsert into the `urls` store by the `tweetUrl` key path. -/
def putUrlsEntry : UrlsCache → UrlsCacheEntry → UrlsCache
  | [], e => [e]
  | x :: xs, e =>
    if x.tweetUrl = e.tweetUrl then e :: xs else x :: putUrlsEntry xs e

/-- `saveTweetUrlsToCache(tweetUrl, imageUrls)`:
`put { tweetUrl, imageUrls, timestamp: Date.now() }`. -/
def saveTweetUrlsToCache (c : UrlsCache) (tweetUrl : String)
    (imageUrls : List String) (now : Nat) : UrlsCache :=
  putUrlsEntry c ⟨tweetUrl, imageUrls, now⟩

/-- `getTweetUrlsFromCache(tweetUrl)`: read the entry keyed by `tweetUrl`;
an entry older than one year resolves to `null` (a miss).  A stored
`imageUrls` array is always truthy in JS (even when empty), so the
`result.imageUrls` check holds for every stored entry. -/
def getTweetUrlsFromCache (c : UrlsCache) (tweetUrl : String) (now : Nat) :
    Option (List String) :=
  match c.find? (fun e => e.tweetUrl == tweetUrl) with
  | some e => if now - e.timestamp > YEAR_MS then none else some e.imageUrls
  | none => none

/-- `clearImageCache()`: `store.clear()` on the `images` store. -/
def clearImageCache (_c : ImageCache) : ImageCache :=
  []

/-- `clearUrlsCache()`: `store.clear()` on the `urls` store. -/
def clearUrlsCache (_c : UrlsCache) : UrlsCache :=
  []

/-- The whitespace character class of a JavaScript regular expression
(the matches of the backslash-s class) and of `String.prototype.trim`:
tab 9, line feed 10, vertical tab 11, form feed 12, carriage return 13,
space 32, and the Unicode space code points. -/
def isJsWhitespace (c : Char) : Bool :=
  (9 ≤ c.toNat && c.toNat ≤ 13) || c.toNat = 32 ||
  c.toNat = 0xA0 || c.toNat = 0x1680 ||
  (0x2000 ≤ c.toNat && c.toNat ≤ 0x200A) ||
  c.toNat = 0x2028 || c.toNat = 0x2029 ||
  c.toNat = 0x202F || c.toNat = 0x205F || c.toNat = 0x3000 || c.toNat = 0xFEFF

/-- JavaScript `String.prototype.trim`: strip leading and trailing
whitespace. -/
def jsTrim (s : String) : String :=
  (((s.data.dropWhile isJsWhitespace).reverse.dropWhile
      isJsWhitespace).reverse).asString

/-- The character class `[A-Za-z0-9_-]` of the media regex (first
character run of a media id): code points 65..90 (A..Z), 97..122 (a..z),
48..57 (0..9), 95 (underscore) and 45 (hyphen). -/
def isMediaIdChar (c : Char) : Bool :=
  (65 ≤ c.toNat && c.toNat ≤ 90) || (97 ≤ c.toNat && c.toNat ≤ 122) ||
  (48 ≤ c.toNat && c.toNat ≤ 57) || c.toNat = 95 || c.toNat = 45

/-- The negated character class of the media regex: every character other
than a double quote (34), a single quote (39), a closing parenthesis (41),
or whitespace may extend a match. -/
def isMediaUrlChar (c : Char) : Bool :=
  !(c.toNat = 34 || c.toNat = 39 || c.toNat = 41 || isJsWhitespace c)

/-- Literal-prefix test on character lists (anchored match of the fixed
part of a regex at the current scan position). -/
def startsWithL : List Char → List Char → Bool
  | [], _ => true
  | _ :: _, [] => false
  | p :: ps, c :: cs => p == c && startsWithL ps cs

/-- The fixed part of the media regex with the optional `s` present:
the characters of "https://pbs.twimg.com/media/". -/
def mediaPatS : List Char :=
  "https://pbs.twimg.com/media/".data

/-- The fixed part of the media regex with the optional `s` absent:
the characters of "http://pbs.twimg.com/media/". -/
def mediaPatH : List Char :=
  "http://pbs.twimg.com/media/".data

/-- Greedy tail of a media match after the fixed prefix: one or more
`[A-Za-z0-9_-]` characters, then zero or more characters from the negated
class.  Since every media-id character is also in the negated class, the
greedy engine never backtracks here: the first run is the maximal id-char
run and the second run extends it to the maximal allowed-char run.
Returns the full matched text (prefix included) and the remaining input. -/
def mediaMatchTail (pat tail : List Char) : Option (List Char × List Char) :=
  let run1 := tail.takeWhile isMediaIdChar
  if run1.isEmpty then none
  else
    let rest1 := tail.dropWhile isMediaIdChar
    some (pat ++ run1 ++ rest1.takeWhile isMediaUrlChar,
          rest1.dropWhile isMediaUrlChar)

/-- Attempt of the media regex at the current position: try the prefix with
`https`, then with `http` (the greedy optional `s`), then the id/tail runs. -/
def mediaMatchAt (cs : List Char) : Option (List Char × List Char) :=
  if startsWithL mediaPatS cs then
    mediaMatchTail mediaPatS (cs.drop mediaPatS.length)
  else if startsWithL mediaPatH cs then
    mediaMatchTail mediaPatH (cs.drop mediaPatH.length)
  else none

/-- Global regex matching (`text.match(mediaRegex) || []`): scan left to
right; at each position emit the leftmost match and resume after it, or
advance one character. -/
def mediaScan : List Char → List String
  | [] => []
  | c :: cs =>
    match h : mediaMatchAt (c :: cs) with
    | some (m, r) => m.asString :: mediaScan r
    | none => mediaScan cs
termination_by cs => cs.length
decreasing_by
  · have hdw : ∀ (p : Char → Bool) (l : List Char),
        (l.dropWhile p).length ≤ l.length := by
      intro p l
      induction l with
      | nil => simp [List.dropWhile]
      | cons x xs ih =>
        by_cases hx : p x
        · simp only [List.dropWhile_cons_of_pos hx, List.length_cons]
          omega
        · simp [List.dropWhile_cons_of_neg hx]
    have htail : ∀ (pat tail : List Char) (m r : List Char),
        mediaMatchTail pat tail = some (m, r) → r.length ≤ tail.length := by
      intro pat tail m r hmt
      unfold mediaMatchTail at hmt
      by_cases he : (tail.takeWhile isMediaIdChar).isEmpty
      · simp [he] at hmt
      · simp [he] at hmt
        rw [← hmt.2]
        calc ((tail.dropWhile isMediaIdChar).dropWhile isMediaUrlChar).length
            ≤ (tail.dropWhile isMediaIdChar).length := hdw _ _
          _ ≤ tail.length := hdw _ _
    unfold mediaMatchAt at h
    by_cases h1 : startsWithL mediaPatS (c :: cs)
    · simp only [h1, if_true] at h
      have := htail _ _ _ _ h
      have hd : ((c :: cs).drop mediaPatS.length).length
          = (c :: cs).length - mediaPatS.length := List.length_drop _ _
      have hp : 0 < mediaPatS.length := by decide
      simp only [List.length_cons] at hd ⊢
      omega
    · simp only [h1, if_false] at h
      by_cases h2 : startsWithL mediaPatH (c :: cs)
      · simp only [h2, if_true] at h
        have := htail _ _ _ _ h
        have hd : ((c :: cs).drop mediaPatH.length).length
            = (c :: cs).length - mediaPatH.length := List.length_drop _ _
        have hp : 0 < mediaPatH.length := by decide
        simp only [List.length_cons] at hd ⊢
        omega
      · simp [h2] at h
  · simp [Nat.lt_succ_self]

/-- Insertion-order deduplication with an accumulator of already-seen
elements: the semantics of `Array.from(new Set(list))`. -/
def setDedupAux (seen : List String) : List String → List String
  | [] => []
  | a :: as =>
    if a ∈ seen then setDedupAux seen as
    else a :: setDedupAux (a :: seen) as

/-- `Array.from(new Set(list))`: keep the first occurrence of each element,
in insertion order. -/
def setDedup (l : List String) : List String :=
  setDedupAux [] l

/-- `u.split(Char.ofNat 63)[0]` of the scraper: the part of the URL before
the first question mark (the whole URL when it has none). -/
def cleanUrl (u : String) : String :=
  (u.data.takeWhile (fun c => c != '?')).asString

/-- Normalization of one matched media URL: strip the query parameters and
append the canonical large-format suffix. -/
def formatLarge (u : String) : String :=
  cleanUrl u ++ "?format=jpg&name=large"

/-- `fetchTweetImagesViaProxy(tweetUrl)`: try each relay endpoint in the
declared order.  Each element of `responses` stands for the body text
obtained from one relay (`none` when the fetch threw or the status was not
ok, in which case the relay is skipped; for the allorigins relay the body
is the `contents` field of its JSON envelope).  The first relay whose body
yields at least one media-regex match wins: its matches are deduplicated
with set semantics and normalized.  Exhausting all relays yields `[]`. -/
def fetchTweetImagesViaProxy : List (Option String) → List String
  | [] => []
  | none :: rest => fetchTweetImagesViaProxy rest
  | some text :: rest =>
    let found := setDedup (mediaScan text.data)
    if found.length > 0 then found.map formatLarge
    else fetchTweetImagesViaProxy rest

/-- The fixed part of the tweet-id regex: the characters of "/status/". -/
def statusPat : List Char :=
  "/status/".data

/-- The tweet-id regex applied to a URL: find the first occurrence of
"/status/" followed by at least one digit and capture the maximal digit
run; positions where the digits are missing are skipped, as regex
scanning does. -/
def extractStatusId : List Char → Option (List Char)
  | [] => none
  | c :: cs =>
    if startsWithL statusPat (c :: cs) then
      match (c :: cs).drop statusPat.length with
      | d :: ds =>
        if d.isDigit then some ((d :: ds).takeWhile Char.isDigit)
        else extractStatusId cs
      | [] => extractStatusId cs
    else extractStatusId cs

/-- The hardcoded fallback table of `getKnownTweetImages`, keyed by the
tweet id. -/
def knownTweetImagesTable (tweetId : String) : List String :=
  if tweetId = "1973385010481606663" then
    ["https://pbs.twimg.com/media/G2LfJa8WgAM9qkW?format=jpg&name=large",
     "https://pbs.twimg.com/media/G2LfJa1WkAACYAk?format=jpg&name=large",
     "https://pbs.twimg.com/media/G2LfJbEXMAA39wl?format=jpg&name=large",
     "https://pbs.twimg.com/media/G2LfJaxWMAABWFy?format=jpg&name=large"]
  else []

/-- `getKnownTweetImages(tweetUrl)`: extract the numeric tweet id from the
URL's `/status/` path segment and look it up in the static table; yield
`[]` when the id is absent or unknown. -/
def getKnownTweetImages (url : String) : List String :=
  match extractStatusId url.data with
  | some i => knownTweetImagesTable i.asString
  | none => []

/-- Labels for the resolution strategies of `handleTweetFetch`, in their
declared order: the resolved-URL cache lookup, the oEmbed embed fetch, the
proxy relay chain, and the static known-tweet fallback table. -/
inductive FetchStrategy where
  | cacheLookup
  | oembed
  | proxy
  | known
deriving Repr, DecidableEq

/-- Outcome of one run of `handleTweetFetch`: the resolved image URLs, the
`urls` store after the run, and the strategies attempted, in order. -/
structure FetchResult where
  images : List String
  urlsCache : UrlsCache
  attempted : List FetchStrategy
deriving Repr, DecidableEq

/-- The network part of `handleTweetFetch` (steps 1 to 3 plus the cache
write), run when the resolved-URL cache produced no usable hit.
`oembedImgs` is the image list extracted from the oEmbed HTML fragment
(empty when the oEmbed fetch failed or returned no markup; the DOM
extraction itself is `extractImgSrcsFromHTML`); `proxyResponses` feeds the
relay chain of `fetchTweetImagesViaProxy`.  The oEmbed result is kept when
non-empty; only a zero-image oEmbed falls through to the proxies, and only
a zero-image proxy chain falls through to the known-tweet table.  A
non-empty final list is persisted into the `urls` store keyed by the
source URL. -/
def fetchNetwork (cache : UrlsCache) (url : String) (now : Nat)
    (oembedImgs : List String) (proxyResponses : List (Option String)) :
    FetchResult :=
  let images1 := oembedImgs
  let images2 :=
    if images1.length = 0 then fetchTweetImagesViaProxy proxyResponses
    else images1
  let attempted2 :=
    if images1.length = 0 then [FetchStrategy.oembed, FetchStrategy.proxy]
    else [FetchStrategy.oembed]
  let images3 := if images2.length = 0 then getKnownTweetImages url else images2
  let attempted3 :=
    if images2.length = 0 then attempted2 ++ [FetchStrategy.known]
    else attempted2
  let cache2 :=
    if images3.length > 0 then saveTweetUrlsToCache cache url images3 now
    else cache
  ⟨images3, cache2, FetchStrategy.cacheLookup :: attempted3⟩

/-- `handleTweetFetch()`: resolve the (trimmed) source post URL of the
current day.  An empty URL aborts.  Otherwise the resolved-URL cache is
consulted first: a non-expired entry with a non-empty list is returned
as-is and every network strategy is skipped; anything else falls through
to `fetchNetwork`.  (The subsequent per-image download and the embed-HTML
UI state are outside this function's contract.) -/
def handleTweetFetch (cache : UrlsCache) (tweetUrl : String) (now : Nat)
    (oembedImgs : List String) (proxyResponses : List (Option String)) :
    FetchResult :=
  let url := jsTrim tweetUrl
  if url = "" then ⟨[], cache, []⟩
  else
    match getTweetUrlsFromCache cache url now with
    | some cached =>
      if cached.length > 0 then ⟨cached, cache, [FetchStrategy.cacheLookup]⟩
      else fetchNetwork cache url now oembedImgs proxyResponses
    | none => fetchNetwork cache url now oembedImgs proxyResponses

/-- `allImages`: the effective image list of the current day, the resolved
(oEmbed/proxy) images followed by the manual URLs
(`(dayState?.manualImageUrls || []).filter(Boolean)`). -/
def allImages (oembedImgs : List String) (dayState : Option DayRecord) :
    List String :=
  oembedImgs ++
    (match dayState with
     | some ds => ds.manualImageUrls
     | none => []).filter (fun s => s != "")

/-- The state observed by the auto-completion effect: the ref holding the
previous effective image count and the currently loaded day record
(`none` while no record is loaded). -/
structure EdgeState where
  prevImgCount : Nat
  dayState : Option DayRecord
deriving Repr, DecidableEq

/-- The `prevImgCountRef` effect body, run when the effective image count
becomes `curr`: on the edge from a zero previous count to a positive
current count, with a loaded record whose `done` is false, issue exactly
one `persist({ done: true })` patch; in every other situation issue no
patch.  The ref is updated to `curr` in all cases.  Returns the new state
and the number of patches issued. -/
def autoDoneEffect (st : EdgeState) (curr : Nat) : EdgeState × Nat :=
  match st.dayState with
  | some ds =>
    if st.prevImgCount = 0 ∧ 0 < curr ∧ ds.done = false then
      (⟨curr, some { ds with done := true }⟩, 1)
    else (⟨curr, some ds⟩, 0)
  | none => (⟨curr, none⟩, 0)

/-- Events that touch the auto-completion state: the effective image count
changing to `n` (which re-runs the effect), and the user toggling the
done checkbox (`persist({ done: b })`, which does not re-run the effect
since the image count is unchanged). -/
inductive DayEvent where
  | images (n : Nat)
  | setDone (b : Bool)
deriving Repr, DecidableEq

/-- One event step of the auto-completion state machine. -/
def stepDay (st : EdgeState) : DayEvent → EdgeState × Nat
  | DayEvent.images n => autoDoneEffect st n
  | DayEvent.setDone b =>
    (⟨st.prevImgCount, st.dayState.map (fun ds => { ds with done := b })⟩, 0)

/-- Run a sequence of events, accumulating the number of `done=true`
patches issued by the auto-completion rule. -/
def runDays (st : EdgeState) : List DayEvent → EdgeState × Nat
  | [] => (st, 0)
  | e :: es =>
    let p := stepDay st e
    let q := runDays p.1 es
    (q.1, p.2 + q.2)

/-- An event whose image count, if any, is positive. -/
def eventPositive : DayEvent → Bool
  | DayEvent.images n => decide (0 < n)
  | DayEvent.setDone _ => true

/-- The JSON document written by `handleExport`: the active year, the fixed
month 10, and every day record. -/
structure ExportPayload where
  year : Nat
  month : Nat
  data : List DayRecord
deriving Repr, DecidableEq

/-- `handleExport()`: serialize all day records with the year/month
metadata. -/
def handleExport (s : Store) (year : Nat) : ExportPayload :=
  ⟨year, 10, getAllDays s⟩

/-- The parsed `data` field of an import document, as the import code
observes it: `absent` when the field is missing or falsy (then
`json?.data || []` yields the empty list), `records` when it is an array
of day records, and `nonList` when it is a truthy value that is not an
array (then `list.forEach` throws before any `put` is issued and the
outer catch logs the error). -/
inductive ImportData where
  | absent
  | records (l : List DayRecord)
  | nonList
deriving Repr, DecidableEq

/-- Write every record of an import document into the `days` store, in
order, each upserted by its id (`list.forEach(d => store.put(d))`). -/
def importRecords (s : Store) (l : List DayRecord) : Store :=
  l.foldl putDay s

/-- `handleImport`' s effect on the `days` store: the resulting store and
whether the operation completed without a caught error.  A missing or
falsy `data` field behaves as the empty list; a truthy non-array `data`
raises (caught and logged) before any record is written. -/
def handleImport (s : Store) (d : ImportData) : Store × Bool :=
  match d with
  | ImportData.absent => (importRecords s [], true)
  | ImportData.records l => (importRecords s l, true)
  | ImportData.nonList => (s, false)

/-- The component state touched by the claims: the three IndexedDB
collections, the loaded day record, and the oEmbed UI state. -/
structure AppState where
  days : Store
  imageCache : ImageCache
  urlsCache : UrlsCache
  dayState : Option DayRecord
  oembedHTML : String
  oembedImgs : List String
deriving Repr, DecidableEq

/-- The synthesized default record for a never-touched day. -/
def defaultDayRecord (year day : Nat) : DayRecord :=
  ⟨idFor year day, year, day, false, "", []⟩

/-- The day-load effect: read the selected day's record, falling back to
the synthesized default when absent (the default is only set in memory,
not written to the store), and reset the oEmbed UI state.  The `days`
store is only read. -/
def dayLoadEffect (st : AppState) (year day : Nat) : AppState :=
  { st with
    dayState := some ((getDay st.days year day).getD (defaultDayRecord year day)),
    oembedHTML := "",
    oembedImgs := [] }

/-- The clear-cache button handler (confirmed branch): clear the `images`
and `urls` stores, reset the oEmbed UI state, and, when a day record is
loaded, persist that record with `tweetUrl`, `manualImageUrls` and `done`
reset to their defaults.  No other record of the `days` store is
touched. -/
def clearCacheClick (st : AppState) : AppState :=
  let st1 := { st with
    imageCache := clearImageCache st.imageCache,
    urlsCache := clearUrlsCache st.urlsCache,
    oembedHTML := "",
    oembedImgs := [] }
  match st.dayState with
  | some ds =>
    let upd := { ds with tweetUrl := "", manualImageUrls := [], done := false }
    { st1 with days := setDay st1.days upd, dayState := some upd }
  | none => st1

/-- JavaScript `String.prototype.split` on a single-character class: cut
the character list at every separator, keeping empty pieces (n separators
yield n+1 pieces). -/
def splitChars (p : Char → Bool) : List Char → List (List Char)
  | [] => [[]]
  | c :: rest =>
    let r := splitChars p rest
    if p c then [] :: r
    else
      match r with
      | [] => [[c]]
      | piece :: more => (c :: piece) :: more

/-- The parsing step of `handleManualUrlsSave`: split the textarea input on
commas and newlines, trim each piece, and keep only the non-empty ones. -/
def parseManualUrls (input : String) : List String :=
  (((splitChars (fun c => c == '\n' || c == ',') input.data).map
      (fun l => jsTrim l.asString))).filter (fun s => decide (0 < s.length))

/-! ### Helper lemmas about the store operations -/

theorem putDay_cons_pos {x : DayRecord} {xs : Store} {r : DayRecord}
    (h : x.id = r.id) : putDay (x :: xs) r = r :: xs := by
  simp [putDay, h]

theorem putDay_cons_neg {x : DayRecord} {xs : Store} {r : DayRecord}
    (h : ¬x.id = r.id) : putDay (x :: xs) r = x :: putDay xs r := by
  simp [putDay, h]

theorem getDayById_cons_pos {x : DayRecord} {xs : Store} {i : String}
    (h : x.id = i) : getDayById (x :: xs) i = some x := by
  simp [getDayById, List.find?, h]

theorem getDayById_cons_neg {x : DayRecord} {xs : Store} {i : String}
    (h : ¬x.id = i) : getDayById (x :: xs) i = getDayById xs i := by
  have hb : (x.id == i) = false := beq_eq_false_iff_ne.mpr h
  simp [getDayById, List.find?, hb]

theorem getDayById_putDay_self (s : Store) (r : DayRecord) :
    getDayById (putDay s r) r.id = some r := by
  induction s with
  | nil => simp [putDay, getDayById]
  | cons x xs ih =>
    by_cases hx : x.id = r.id
    · rw [putDay_cons_pos hx, getDayById_cons_pos rfl]
    · rw [putDay_cons_neg hx, getDayById_cons_neg hx]
      exact ih

theorem getDayById_putDay_ne (s : Store) (r : DayRecord) (i : String)
    (h : i ≠ r.id) : getDayById (putDay s r) i = getDayById s i := by
  have hr : ¬r.id = i := fun hc => h hc.symm
  induction s with
  | nil =>
    show getDayById [r] i = getDayById [] i
    rw [getDayById_cons_neg hr]
  | cons x xs ih =>
    by_cases hx : x.id = r.id
    · rw [putDay_cons_pos hx, getDayById_cons_neg hr,
        getDayById_cons_neg (hx ▸ hr)]
    · rw [putDay_cons_neg hx]
      by_cases hxi : x.id = i
      · rw [getDayById_cons_pos hxi, getDayById_cons_pos hxi]
      · rw [getDayById_cons_neg hxi, getDayById_cons_neg hxi]
        exact ih

theorem mem_putDay_of_ne {r u : DayRecord} (h : r.id ≠ u.id) :
    ∀ {s : Store}, r ∈ s → r ∈ putDay s u := by
  intro s
  induction s with
  | nil => intro hr; cases hr
  | cons x xs ih =>
    intro hr
    rcases List.mem_cons.mp hr with hreq | hmem
    · subst hreq
      have hx : ¬r.id = u.id := h
      rw [putDay_cons_neg hx]
      exact List.mem_cons_self _ _
    · by_cases hx : x.id = u.id
      · rw [putDay_cons_pos hx]
        exact List.mem_cons_of_mem _ hmem
      · rw [putDay_cons_neg hx]
        exact List.mem_cons_of_mem _ (ih hmem)

theorem getDayById_importRecords_not_mem (s : Store) (l : List DayRecord)
    (i : String) (h : i ∉ l.map DayRecord.id) :
    getDayById (importRecords s l) i = getDayById s i := by
  induction l generalizing s with
  | nil => rfl
  | cons a as ih =>
    have h1 : i ≠ a.id := by
      intro hc; exact h (by simp [hc])
    have h2 : i ∉ as.map DayRecord.id := by
      intro hc; exact h (by simp [hc])
    calc getDayById (importRecords (putDay s a) as) i
        = getDayById (putDay s a) i := ih (putDay s a) h2
      _ = getDayById s i := getDayById_putDay_ne s a i h1

theorem getDayById_importRecords_mem (l : List DayRecord)
    (hl : (l.map DayRecord.id).Nodup) (r : DayRecord) (hr : r ∈ l) :
    ∀ s : Store, getDayById (importRecords s l) r.id = some r := by
  induction l with
  | nil => cases hr
  | cons a as ih =>
    intro s
    have hl' := hl
    rw [List.map_cons, List.nodup_cons] at hl'
    have hl1 : a.id ∉ as.map DayRecord.id := hl'.1
    have hl2 : (as.map DayRecord.id).Nodup := hl'.2
    rcases List.mem_cons.mp hr with hreq | hmem
    · subst hreq
      calc getDayById (importRecords (putDay s r) as) r.id
          = getDayById (putDay s r) r.id :=
            getDayById_importRecords_not_mem (putDay s r) as r.id hl1
        _ = some r := getDayById_putDay_self s r
    · exact ih hl2 hmem (putDay s a)

theorem getDayById_self_of_nodup (s : Store)
    (hs : (s.map DayRecord.id).Nodup) (r : DayRecord) (hr : r ∈ s) :
    getDayById s r.id = some r := by
  induction s with
  | nil => cases hr
  | cons x xs ih =>
    have hs' := hs
    rw [List.map_cons, List.nodup_cons] at hs'
    rcases List.mem_cons.mp hr with hreq | hmem
    · subst hreq
      rw [getDayById_cons_pos rfl]
    · have hx : ¬x.id = r.id := by
        intro hc
        exact hs'.1 (hc ▸ List.mem_map_of_mem DayRecord.id hmem)
      rw [getDayById_cons_neg hx]
      exact ih hs'.2 hmem

theorem putDay_of_getDayById_self (s : Store) (r : DayRecord)
    (h : getDayById s r.id = some r) : putDay s r = s := by
  induction s with
  | nil => simp [getDayById] at h
  | cons x xs ih =>
    by_cases hx : x.id = r.id
    · have hxr : x = r := by
        rw [getDayById_cons_pos hx] at h
        exact Option.some.inj h
      rw [putDay_cons_pos hx, hxr]
    · rw [getDayById_cons_neg hx] at h
      rw [putDay_cons_neg hx, ih h]

theorem importRecords_of_all_present (l : List DayRecord) :
    ∀ s : Store, (∀ r ∈ l, getDayById s r.id = some r) →
      importRecords s l = s := by
  induction l with
  | nil => intro s _; rfl
  | cons a as ih =>
    intro s h
    have ha : putDay s a = s :=
      putDay_of_getDayById_self s a (h a (by simp))
    have : importRecords (putDay s a) as = putDay s a :=
      ih (putDay s a) (by intro r hr; rw [ha]; exact h r (by simp [hr]))
    calc importRecords s (a :: as) = importRecords (putDay s a) as := rfl
      _ = putDay s a := this
      _ = s := ha

/-! ### Helper lemmas about the urls cache -/

theorem find?_putUrlsEntry (c : UrlsCache) (e : UrlsCacheEntry) :
    (putUrlsEntry c e).find? (fun x => x.tweetUrl == e.tweetUrl) = some e := by
  induction c with
  | nil => simp [putUrlsEntry, List.find?]
  | cons x xs ih =>
    by_cases hx : x.tweetUrl = e.tweetUrl
    · simp [putUrlsEntry, hx, List.find?]
    · have hb : (x.tweetUrl == e.tweetUrl) = false := beq_eq_false_iff_ne.mpr hx
      simpa [putUrlsEntry, hx, List.find?, hb] using ih

theorem getTweetUrlsFromCache_save (c : UrlsCache) (u : String)
    (l : List String) (now : Nat) :
    getTweetUrlsFromCache (saveTweetUrlsToCache c u l now) u now = some l := by
  unfold getTweetUrlsFromCache saveTweetUrlsToCache
  rw [find?_putUrlsEntry c ⟨u, l, now⟩]
  simp [YEAR_MS]

theorem mem_putUrlsEntry {e x : UrlsCacheEntry} :
    ∀ {c : UrlsCache}, x ∈ putUrlsEntry c e → x = e ∨ x ∈ c := by
  intro c
  induction c with
  | nil =>
    intro hx
    simp [putUrlsEntry] at hx
    exact Or.inl hx
  | cons y ys ih =>
    intro hx
    by_cases hy : y.tweetUrl = e.tweetUrl
    · rw [show putUrlsEntry (y :: ys) e = e :: ys from by
        simp [putUrlsEntry, hy]] at hx
      rcases List.mem_cons.mp hx with h1 | h1
      · exact Or.inl h1
      · exact Or.inr (List.mem_cons_of_mem _ h1)
    · rw [show putUrlsEntry (y :: ys) e = y :: putUrlsEntry ys e from by
        simp [putUrlsEntry, hy]] at hx
      rcases List.mem_cons.mp hx with h1 | h1
      · exact Or.inr (h1 ▸ List.mem_cons_self _ _)
      · rcases ih h1 with h2 | h2
        · exact Or.inl h2
        · exact Or.inr (List.mem_cons_of_mem _ h2)

/-! ### Claim theorems -/

/-- C3: importing the document produced by export reproduces the identical
day-record store; more generally, an import upserts every record of its
document by id, and a key absent from the document keeps exactly the
record (or absence) it had before the import — nothing is deleted. -/
theorem c3_export_import_round_trip (s : Store) (year : Nat)
    (hids : (s.map DayRecord.id).Nodup) :
    handleImport s (ImportData.records (handleExport s year).data) = (s, true)
    ∧ (∀ (l : List DayRecord) (r : DayRecord),
        (l.map DayRecord.id).Nodup → r ∈ l →
          getDayById (importRecords s l) r.id = some r)
    ∧ (∀ (l : List DayRecord) (i : String), i ∉ l.map DayRecord.id →
        getDayById (importRecords s l) i = getDayById s i) := by
  refine ⟨?_, ?_, ?_⟩
  · have : importRecords s s = s :=
      importRecords_of_all_present s s (fun r hr =>
        getDayById_self_of_nodup s hids r hr)
    simpa [handleImport, handleExport, getAllDays] using this
  · intro l r hl hr
    exact getDayById_importRecords_mem l hl r hr s
  · intro l i h
    exact getDayById_importRecords_not_mem s l i h

/-- C3 witness: the round trip at a concrete two-record store. -/
theorem c3_export_import_round_trip_witness :
    (([⟨"2025-10-1", 2025, 1, true, "", []⟩,
       ⟨"2025-10-2", 2025, 2, false, "u", ["m"]⟩] :
        Store).map DayRecord.id).Nodup
    ∧ handleImport
        [⟨"2025-10-1", 2025, 1, true, "", []⟩,
         ⟨"2025-10-2", 2025, 2, false, "u", ["m"]⟩]
        (ImportData.records
          (handleExport
            [⟨"2025-10-1", 2025, 1, true, "", []⟩,
             ⟨"2025-10-2", 2025, 2, false, "u", ["m"]⟩] 2025).data)
        = ([⟨"2025-10-1", 2025, 1, true, "", []⟩,
            ⟨"2025-10-2", 2025, 2, false, "u", ["m"]⟩], true) :=
  ⟨by decide,
   (c3_export_import_round_trip
     [⟨"2025-10-1", 2025, 1, true, "", []⟩,
      ⟨"2025-10-2", 2025, 2, false, "u", ["m"]⟩] 2025 (by decide)).1⟩

/-- C4 counterexample: a truthy non-list `data` field (for instance a
plain object or a string) is not treated as an empty list — the import
aborts with a caught error instead of completing successfully the way an
empty-data import does. -/
theorem c4_counterexample :
    handleImport [] ImportData.nonList ≠ handleImport [] ImportData.absent
    ∧ (handleImport [] ImportData.nonList).2 = false := by
  refine ⟨?_, rfl⟩
  intro h
  simpa [handleImport, importRecords] using congrArg Prod.snd h

/-- C4 (amended): a missing or falsy `data` field is treated as the empty
list and the import completes with the store unchanged; a truthy non-list
`data` field makes the import abort with a caught error before any record
is written, also leaving the store unchanged; a well-formed list is
upserted record by record. -/
theorem c4_import_malformed_data (s : Store) :
    handleImport s ImportData.absent = (s, true)
    ∧ handleImport s ImportData.nonList = (s, false)
    ∧ (∀ l, handleImport s (ImportData.records l) = (importRecords s l, true)) :=
  ⟨rfl, rfl, fun _ => rfl⟩

/-- C5 counterexample: with day 1 loaded, the clear-cache handler does not
reset the fields of the day-2 record — after the clear, day 2 still has
`done = true` and its old `tweetUrl` and `manualImageUrls`, contradicting
the claim that every record's fields are reset. -/
theorem c5_counterexample :
    getDayById
      (clearCacheClick
        ⟨[⟨"2025-10-1", 2025, 1, false, "", []⟩,
          ⟨"2025-10-2", 2025, 2, true, "https://x.com/u/status/9",
            ["https://a.com/m.jpg"]⟩],
         [⟨"https://a.com/m.jpg", 7, 0⟩],
         [⟨"https://x.com/u/status/9", ["https://a.com/m.jpg"], 0⟩],
         some ⟨"2025-10-1", 2025, 1, false, "", []⟩, "", []⟩).days
      "2025-10-2"
      = some ⟨"2025-10-2", 2025, 2, true, "https://x.com/u/status/9",
          ["https://a.com/m.jpg"]⟩ := by
  decide

/-- C5 (amended): the cache-clear empties both caches and resets
`tweetUrl`/`manualImageUrls`/`done` of the currently loaded record only,
keeping its identity fields; every record with a different id survives
the clear completely unchanged, and no record is deleted. -/
theorem c5_clear_cache_effect (st : AppState) (ds : DayRecord)
    (h : st.dayState = some ds) :
    (clearCacheClick st).imageCache = []
    ∧ (clearCacheClick st).urlsCache = []
    ∧ getDayById (clearCacheClick st).days ds.id
        = some { ds with tweetUrl := "", manualImageUrls := [], done := false }
    ∧ (clearCacheClick st).dayState
        = some { ds with tweetUrl := "", manualImageUrls := [], done := false }
    ∧ (∀ r ∈ st.days, r.id ≠ ds.id → r ∈ (clearCacheClick st).days) := by
  have hclear : clearCacheClick st =
      { st with
        imageCache := [],
        urlsCache := [],
        oembedHTML := "",
        oembedImgs := [],
        days := setDay st.days
          { ds with tweetUrl := "", manualImageUrls := [], done := false },
        dayState := some
          { ds with tweetUrl := "", manualImageUrls := [], done := false } } := by
    simp [clearCacheClick, h, clearImageCache, clearUrlsCache]
  refine ⟨by rw [hclear], by rw [hclear], ?_, by rw [hclear], ?_⟩
  · rw [hclear]
    exact getDayById_putDay_self st.days
      { ds with tweetUrl := "", manualImageUrls := [], done := false }
  · intro r hr hne
    rw [hclear]
    exact @mem_putDay_of_ne r
      { ds with tweetUrl := "", manualImageUrls := [], done := false }
      hne st.days hr

/-- C5 witness for the amended statement, at a concrete two-record state. -/
theorem c5_clear_cache_effect_witness :
    (⟨[⟨"2025-10-1", 2025, 1, true, "u", ["m"]⟩,
       ⟨"2025-10-2", 2025, 2, true, "v", []⟩],
      [], [], some ⟨"2025-10-1", 2025, 1, true, "u", ["m"]⟩, "", []⟩ :
        AppState).dayState = some ⟨"2025-10-1", 2025, 1, true, "u", ["m"]⟩
    ∧ getDayById
        (clearCacheClick
          ⟨[⟨"2025-10-1", 2025, 1, true, "u", ["m"]⟩,
            ⟨"2025-10-2", 2025, 2, true, "v", []⟩],
           [], [], some ⟨"2025-10-1", 2025, 1, true, "u", ["m"]⟩, "", []⟩).days
        "2025-10-1"
        = some ⟨"2025-10-1", 2025, 1, false, "", []⟩ :=
  ⟨rfl,
   (c5_clear_cache_effect
     ⟨[⟨"2025-10-1", 2025, 1, true, "u", ["m"]⟩,
       ⟨"2025-10-2", 2025, 2, true, "v", []⟩],
      [], [], some ⟨"2025-10-1", 2025, 1, true, "u", ["m"]⟩, "", []⟩
     ⟨"2025-10-1", 2025, 1, true, "u", ["m"]⟩ rfl).2.2.1⟩

/-- C7: loading a never-seen (year, day) pair synthesizes the default
record — done false, empty manual list, empty tweetUrl, id given by the
deterministic id function — without writing anything to the store. -/
theorem c7_load_unseen_day (st : AppState) (year day : Nat)
    (h1 : 1 ≤ day) (h2 : day ≤ 31) (h3 : getDay st.days year day = none) :
    (dayLoadEffect st year day).dayState
        = some ⟨idFor year day, year, day, false, "", []⟩
    ∧ (dayLoadEffect st year day).days = st.days
    ∧ idFor year day = toString year ++ "-10-" ++ toString day := by
  refine ⟨?_, rfl, rfl⟩
  simp [dayLoadEffect, h3, defaultDayRecord]

/-- C7 witness: loading day 7 of 2025 from an empty store. -/
theorem c7_load_unseen_day_witness :
    (1 ≤ 7 ∧ 7 ≤ 31 ∧ getDay ([] : Store) 2025 7 = none)
    ∧ (dayLoadEffect ⟨[], [], [], none, "", []⟩ 2025 7).dayState
        = some ⟨idFor 2025 7, 2025, 7, false, "", []⟩ :=
  ⟨⟨by decide, by decide, by decide⟩,
   (c7_load_unseen_day ⟨[], [], [], none, "", []⟩ 2025 7
     (by decide) (by decide) (by decide)).1⟩

/-- C8: an image-cache entry older than the one-year TTL reads as a miss,
while the read leaves the store untouched, so the expired entry still
physically exists after the read. -/
theorem c8_expired_image_entry_is_miss (c : ImageCache) (url : String)
    (now : Nat) (e : ImageCacheEntry)
    (hfind : c.find? (fun x => x.url == url) = some e)
    (hexp : now - e.timestamp > YEAR_MS) :
    (getImageFromCache c url now).1 = none
    ∧ (getImageFromCache c url now).2 = c
    ∧ e ∈ (getImageFromCache c url now).2 := by
  refine ⟨?_, rfl, List.mem_of_find?_eq_some hfind⟩
  simp [getImageFromCache, hfind, hexp]

/-- C8 witness: a single entry written at time 0 read one millisecond
after the TTL elapsed. -/
theorem c8_expired_image_entry_is_miss_witness :
    (([⟨"https://a.com/m.jpg", 7, 0⟩] :
        ImageCache).find? (fun x => x.url == "https://a.com/m.jpg")
      = some ⟨"https://a.com/m.jpg", 7, 0⟩
     ∧ (365 * 24 * 60 * 60 * 1000 + 1) - 0 > YEAR_MS)
    ∧ (getImageFromCache [⟨"https://a.com/m.jpg", 7, 0⟩]
        "https://a.com/m.jpg" (365 * 24 * 60 * 60 * 1000 + 1)).1 = none :=
  ⟨⟨by decide, by decide⟩,
   (c8_expired_image_entry_is_miss [⟨"https://a.com/m.jpg", 7, 0⟩]
     "https://a.com/m.jpg" (365 * 24 * 60 * 60 * 1000 + 1)
     ⟨"https://a.com/m.jpg", 7, 0⟩ (by decide) (by decide)).1⟩

/-- C9: the manual-URLs input is split on commas and newlines, trimmed,
and cleaned of empty pieces: the spec's example input yields exactly its
two URLs, no parse result ever contains an empty entry, and a trailing
separator adds nothing. -/
theorem c9_manual_urls_parsing :
    parseManualUrls "https://a.com/1.jpg,\nhttps://b.com/2.png"
        = ["https://a.com/1.jpg", "https://b.com/2.png"]
    ∧ (∀ (input s : String), s ∈ parseManualUrls input → s ≠ "")
    ∧ parseManualUrls "https://a.com/1.jpg,\n" = ["https://a.com/1.jpg"] := by
  refine ⟨by decide, ?_, by decide⟩
  intro input s hs
  have hlen := List.of_mem_filter hs
  intro hempty
  subst hempty
  simp at hlen

/-- C9 witness: the no-empty-entries property applied at the example with
the trailing separators. -/
theorem c9_manual_urls_parsing_witness :
    ("https://a.com/1.jpg" ∈ parseManualUrls "https://a.com/1.jpg,\n")
    ∧ ("https://a.com/1.jpg" : String) ≠ "" :=
  ⟨by decide,
   c9_manual_urls_parsing.2.1 "https://a.com/1.jpg,\n" "https://a.com/1.jpg"
     (by decide)⟩

/-! ### Helper lemma for the auto-completion rule -/

theorem runDays_no_patch (events : List DayEvent)
    (hpos : ∀ e ∈ events, eventPositive e = true) :
    ∀ st : EdgeState, 0 < st.prevImgCount →
      (runDays st events).2 = 0 ∧ 0 < (runDays st events).1.prevImgCount := by
  induction events with
  | nil =>
    intro st h
    exact ⟨rfl, h⟩
  | cons e es ih =>
    intro st h
    have hes : ∀ x ∈ es, eventPositive x = true :=
      fun x hx => hpos x (List.mem_cons_of_mem _ hx)
    have hstep : (stepDay st e).2 = 0 ∧ 0 < (stepDay st e).1.prevImgCount := by
      cases e with
      | images n =>
        have hn : 0 < n := by
          simpa [eventPositive] using hpos (DayEvent.images n) (by simp)
        cases hds : st.dayState with
        | none =>
          simp only [stepDay, autoDoneEffect, hds]
          exact ⟨by trivial, hn⟩
        | some ds =>
          have hne : ¬(st.prevImgCount = 0 ∧ 0 < n ∧ ds.done = false) := by
            intro hc
            have h1 := hc.1
            omega
          simp only [stepDay, autoDoneEffect, hds]
          rw [if_neg hne]
          exact ⟨by trivial, hn⟩
      | setDone b => simpa [stepDay] using h
    have hrec := ih hes (stepDay st e).1 hstep.2
    refine ⟨?_, hrec.2⟩
    show (stepDay st e).2 + (runDays (stepDay st e).1 es).2 = 0
    rw [hstep.1, hrec.1]

/-- C2: the auto-completion rule is edge-triggered.  On a transition of
the effective image count from zero to a positive value, with a loaded
record whose done flag is false, exactly one done-true patch is issued;
from any state whose previous count is positive a single effect run
issues no patch; and from any such state, an entire event sequence whose
image counts stay positive — including the user un-marking done — issues
no patch at all, so a manual done=false is never reverted until the count
returns to zero first. -/
theorem c2_auto_done_edge_trigger (ds : DayRecord) (hdone : ds.done = false)
    (c : Nat) (hc : 0 < c)
    (events : List DayEvent) (hpos : ∀ e ∈ events, eventPositive e = true) :
    autoDoneEffect ⟨0, some ds⟩ c = (⟨c, some { ds with done := true }⟩, 1)
    ∧ (∀ (st : EdgeState) (n : Nat), 0 < st.prevImgCount →
        (autoDoneEffect st n).2 = 0)
    ∧ (∀ st : EdgeState, 0 < st.prevImgCount → (runDays st events).2 = 0) := by
  refine ⟨?_, ?_, ?_⟩
  · simp [autoDoneEffect, hdone, hc]
  · intro st n h
    cases hds : st.dayState with
    | none => simp [autoDoneEffect, hds]
    | some d =>
      have hcond : ¬(st.prevImgCount = 0 ∧ 0 < n ∧ d.done = false) := by
        intro hcc
        have := hcc.1
        omega
      simp [autoDoneEffect, hds, hcond]
  · intro st h
    exact (runDays_no_patch events hpos st h).1

/-- C2 witness: the rule fires once on the 0 to 2 edge for an unfinished
day record, and a later sequence (user un-marks done, count grows to 3)
issues no patch. -/
theorem c2_auto_done_edge_trigger_witness :
    ((⟨"2025-10-1", 2025, 1, false, "", []⟩ : DayRecord).done = false
     ∧ 0 < 2
     ∧ (∀ e ∈ [DayEvent.setDone false, DayEvent.images 3],
          eventPositive e = true))
    ∧ autoDoneEffect ⟨0, some ⟨"2025-10-1", 2025, 1, false, "", []⟩⟩ 2
        = (⟨2, some ⟨"2025-10-1", 2025, 1, true, "", []⟩⟩, 1)
    ∧ (runDays ⟨2, some ⟨"2025-10-1", 2025, 1, true, "", []⟩⟩
        [DayEvent.setDone false, DayEvent.images 3]).2 = 0 :=
  ⟨⟨by decide, by decide, by decide⟩,
   (c2_auto_done_edge_trigger ⟨"2025-10-1", 2025, 1, false, "", []⟩ rfl 2
     (by decide) [DayEvent.setDone false, DayEvent.images 3] (by decide)).1,
   (c2_auto_done_edge_trigger ⟨"2025-10-1", 2025, 1, false, "", []⟩ rfl 2
     (by decide) [DayEvent.setDone false, DayEvent.images 3] (by decide)).2.2
     ⟨2, some ⟨"2025-10-1", 2025, 1, true, "", []⟩⟩ (by decide)⟩

/-! ### Helper lemmas for the resolver -/

theorem handleTweetFetch_unfold (cache : UrlsCache) (tweetUrl : String)
    (now : Nat) (oI : List String) (pR : List (Option String)) :
    handleTweetFetch cache tweetUrl now oI pR =
      if jsTrim tweetUrl = "" then ⟨[], cache, []⟩
      else
        match getTweetUrlsFromCache cache (jsTrim tweetUrl) now with
        | some cached =>
          if cached.length > 0 then ⟨cached, cache, [FetchStrategy.cacheLookup]⟩
          else fetchNetwork cache (jsTrim tweetUrl) now oI pR
        | none => fetchNetwork cache (jsTrim tweetUrl) now oI pR := rfl

theorem handleTweetFetch_hit {cache : UrlsCache} {tweetUrl : String}
    {now : Nat} {oI : List String} {pR : List (Option String)}
    {l : List String} (htrim : jsTrim tweetUrl ≠ "")
    (hget : getTweetUrlsFromCache cache (jsTrim tweetUrl) now = some l)
    (hl : l ≠ []) :
    handleTweetFetch cache tweetUrl now oI pR
      = ⟨l, cache, [FetchStrategy.cacheLookup]⟩ := by
  rw [handleTweetFetch_unfold, if_neg htrim, hget]
  show (if l.length > 0 then (⟨l, cache, [FetchStrategy.cacheLookup]⟩ :
    FetchResult) else fetchNetwork cache (jsTrim tweetUrl) now oI pR) = _
  rw [if_pos (List.length_pos.mpr hl)]

theorem handleTweetFetch_miss {cache : UrlsCache} {tweetUrl : String}
    {now : Nat} {oI : List String} {pR : List (Option String)}
    (htrim : jsTrim tweetUrl ≠ "")
    (hmiss : (getTweetUrlsFromCache cache (jsTrim tweetUrl) now).getD [] = []) :
    handleTweetFetch cache tweetUrl now oI pR
      = fetchNetwork cache (jsTrim tweetUrl) now oI pR := by
  rw [handleTweetFetch_unfold, if_neg htrim]
  cases hget : getTweetUrlsFromCache cache (jsTrim tweetUrl) now with
  | none => rfl
  | some l =>
    have hl : l = [] := by
      rw [hget] at hmiss
      simpa using hmiss
    subst hl
    show (if (0 : Nat) > 0 then _ else _) = _
    rw [if_neg (by omega)]

theorem fetchNetwork_oembed {cache : UrlsCache} {url : String} {now : Nat}
    {oI : List String} {pR : List (Option String)} (h : oI ≠ []) :
    fetchNetwork cache url now oI pR =
      ⟨oI, saveTweetUrlsToCache cache url oI now,
       [FetchStrategy.cacheLookup, FetchStrategy.oembed]⟩ := by
  have h0 : ¬oI.length = 0 := by
    simpa [List.length_eq_zero] using h
  have hpos : oI.length > 0 := Nat.pos_of_ne_zero h0
  simp only [fetchNetwork, if_neg h0, if_pos hpos]

theorem fetchNetwork_proxy {cache : UrlsCache} {url : String} {now : Nat}
    {oI : List String} {pR : List (Option String)} (h0 : oI = [])
    (hp : fetchTweetImagesViaProxy pR ≠ []) :
    fetchNetwork cache url now oI pR =
      ⟨fetchTweetImagesViaProxy pR,
       saveTweetUrlsToCache cache url (fetchTweetImagesViaProxy pR) now,
       [FetchStrategy.cacheLookup, FetchStrategy.oembed,
        FetchStrategy.proxy]⟩ := by
  subst h0
  have hp0 : ¬(fetchTweetImagesViaProxy pR).length = 0 := by
    simpa [List.length_eq_zero] using hp
  have hppos : (fetchTweetImagesViaProxy pR).length > 0 :=
    Nat.pos_of_ne_zero hp0
  simp [fetchNetwork, hp0, hppos]

theorem fetchNetwork_known {cache : UrlsCache} {url : String} {now : Nat}
    {oI : List String} {pR : List (Option String)} (h0 : oI = [])
    (hp : fetchTweetImagesViaProxy pR = []) :
    fetchNetwork cache url now oI pR =
      ⟨getKnownTweetImages url,
       if (getKnownTweetImages url).length > 0
       then saveTweetUrlsToCache cache url (getKnownTweetImages url) now
       else cache,
       [FetchStrategy.cacheLookup, FetchStrategy.oembed, FetchStrategy.proxy,
        FetchStrategy.known]⟩ := by
  subst h0
  simp [fetchNetwork, hp]

theorem fetchNetwork_urlsCache (cache : UrlsCache) (url : String) (now : Nat)
    (oI : List String) (pR : List (Option String)) :
    (fetchNetwork cache url now oI pR).urlsCache =
      if (fetchNetwork cache url now oI pR).images.length > 0
      then saveTweetUrlsToCache cache url
        (fetchNetwork cache url now oI pR).images now
      else cache := rfl

theorem getTweetUrlsFromCache_nonempty {c : UrlsCache} {u : String}
    {now : Nat} {l : List String}
    (hget : getTweetUrlsFromCache c u now = some l)
    (hinv : ∀ e ∈ c, e.imageUrls ≠ []) : l ≠ [] := by
  unfold getTweetUrlsFromCache at hget
  cases hf : c.find? (fun e => e.tweetUrl == u) with
  | none => rw [hf] at hget; cases hget
  | some e =>
    rw [hf] at hget
    have hget2 : (if now - e.timestamp > YEAR_MS then none
        else some e.imageUrls) = some l := hget
    by_cases ht : now - e.timestamp > YEAR_MS
    · rw [if_pos ht] at hget2; cases hget2
    · rw [if_neg ht] at hget2
      have hmem := List.mem_of_find?_eq_some hf
      have h2 := hinv e hmem
      have he : e.imageUrls = l := Option.some.inj hget2
      exact he ▸ h2

/-- C1: the tweet-fetch resolution runs its strategies in the declared
order with first success winning.  A non-expired cached non-empty list for
the exact source URL is returned with every network strategy skipped and
the cache untouched; on a cache miss the oEmbed result wins when
non-empty, otherwise the proxy relay chain is consulted, otherwise the
static known-tweet table; and any non-empty network result is written
into the resolved-URL cache keyed by the source URL (where a fresh lookup
then finds it) before it is used, while an empty result writes nothing. -/
theorem c1_resolver_order (cache : UrlsCache) (tweetUrl : String) (now : Nat)
    (oI : List String) (pR : List (Option String))
    (htrim : jsTrim tweetUrl ≠ "") :
    (∀ l, getTweetUrlsFromCache cache (jsTrim tweetUrl) now = some l →
      l ≠ [] →
      handleTweetFetch cache tweetUrl now oI pR
        = ⟨l, cache, [FetchStrategy.cacheLookup]⟩)
    ∧ ((getTweetUrlsFromCache cache (jsTrim tweetUrl) now).getD [] = [] →
        oI ≠ [] →
        (handleTweetFetch cache tweetUrl now oI pR).images = oI
        ∧ (handleTweetFetch cache tweetUrl now oI pR).attempted
            = [FetchStrategy.cacheLookup, FetchStrategy.oembed])
    ∧ ((getTweetUrlsFromCache cache (jsTrim tweetUrl) now).getD [] = [] →
        oI = [] → fetchTweetImagesViaProxy pR ≠ [] →
        (handleTweetFetch cache tweetUrl now oI pR).images
            = fetchTweetImagesViaProxy pR
        ∧ (handleTweetFetch cache tweetUrl now oI pR).attempted
            = [FetchStrategy.cacheLookup, FetchStrategy.oembed,
               FetchStrategy.proxy])
    ∧ ((getTweetUrlsFromCache cache (jsTrim tweetUrl) now).getD [] = [] →
        oI = [] → fetchTweetImagesViaProxy pR = [] →
        (handleTweetFetch cache tweetUrl now oI pR).images
            = getKnownTweetImages (jsTrim tweetUrl)
        ∧ (handleTweetFetch cache tweetUrl now oI pR).attempted
            = [FetchStrategy.cacheLookup, FetchStrategy.oembed,
               FetchStrategy.proxy, FetchStrategy.known])
    ∧ ((getTweetUrlsFromCache cache (jsTrim tweetUrl) now).getD [] = [] →
        (handleTweetFetch cache tweetUrl now oI pR).images ≠ [] →
        (handleTweetFetch cache tweetUrl now oI pR).urlsCache
            = saveTweetUrlsToCache cache (jsTrim tweetUrl)
                (handleTweetFetch cache tweetUrl now oI pR).images now
        ∧ getTweetUrlsFromCache
            (handleTweetFetch cache tweetUrl now oI pR).urlsCache
            (jsTrim tweetUrl) now
            = some (handleTweetFetch cache tweetUrl now oI pR).images)
    ∧ ((getTweetUrlsFromCache cache (jsTrim tweetUrl) now).getD [] = [] →
        (handleTweetFetch cache tweetUrl now oI pR).images = [] →
        (handleTweetFetch cache tweetUrl now oI pR).urlsCache = cache) := by
  refine ⟨?_, ?_, ?_, ?_, ?_, ?_⟩
  · intro l hget hl
    exact handleTweetFetch_hit htrim hget hl
  · intro hmiss hoI
    rw [handleTweetFetch_miss htrim hmiss, fetchNetwork_oembed hoI]
    exact ⟨rfl, rfl⟩
  · intro hmiss hoI hp
    rw [handleTweetFetch_miss htrim hmiss, fetchNetwork_proxy hoI hp]
    exact ⟨rfl, rfl⟩
  · intro hmiss hoI hp
    rw [handleTweetFetch_miss htrim hmiss, fetchNetwork_known hoI hp]
    exact ⟨rfl, rfl⟩
  · intro hmiss himg
    rw [handleTweetFetch_miss htrim hmiss] at himg ⊢
    have hpos : (fetchNetwork cache (jsTrim tweetUrl) now oI pR).images.length
        > 0 := List.length_pos.mpr himg
    have hcache := fetchNetwork_urlsCache cache (jsTrim tweetUrl) now oI pR
    rw [if_pos hpos] at hcache
    refine ⟨hcache, ?_⟩
    rw [hcache]
    exact getTweetUrlsFromCache_save cache (jsTrim tweetUrl) _ now
  · intro hmiss himg
    rw [handleTweetFetch_miss htrim hmiss] at himg ⊢
    have hcache := fetchNetwork_urlsCache cache (jsTrim tweetUrl) now oI pR
    rw [himg] at hcache
    simpa using hcache

/-- C1 witness: with an empty cache, an oEmbed result of one image, and no
proxy responses, the oEmbed strategy wins and the result is cached. -/
theorem c1_resolver_order_witness :
    jsTrim "https://x.com/u/status/9" ≠ ""
    ∧ (getTweetUrlsFromCache [] (jsTrim "https://x.com/u/status/9") 5).getD []
        = []
    ∧ (["https://pbs.twimg.com/media/AAA?format=jpg&name=large"] :
        List String) ≠ []
    ∧ (handleTweetFetch [] "https://x.com/u/status/9" 5
        ["https://pbs.twimg.com/media/AAA?format=jpg&name=large"] []).images
        = ["https://pbs.twimg.com/media/AAA?format=jpg&name=large"]
    ∧ (handleTweetFetch [] "https://x.com/u/status/9" 5
        ["https://pbs.twimg.com/media/AAA?format=jpg&name=large"] []).attempted
        = [FetchStrategy.cacheLookup, FetchStrategy.oembed] :=
  ⟨by decide, by decide, by decide,
   ((c1_resolver_order [] "https://x.com/u/status/9" 5
      ["https://pbs.twimg.com/media/AAA?format=jpg&name=large"] []
      (by decide)).2.1 (by decide) (by decide)).1,
   ((c1_resolver_order [] "https://x.com/u/status/9" 5
      ["https://pbs.twimg.com/media/AAA?format=jpg&name=large"] []
      (by decide)).2.1 (by decide) (by decide)).2⟩

/-- C10: the resolved-URL cache only ever receives non-empty lists (the
write is guarded by a length check), so the all-entries-non-empty
invariant is preserved by every run of `handleTweetFetch`; and under that
invariant a non-expired cache hit always short-circuits the resolution
with a non-empty result. -/
theorem c10_cache_nonempty_invariant (cache : UrlsCache) (tweetUrl : String)
    (now : Nat) (oI : List String) (pR : List (Option String))
    (hinv : ∀ e ∈ cache, e.imageUrls ≠ []) :
    (∀ e ∈ (handleTweetFetch cache tweetUrl now oI pR).urlsCache,
        e.imageUrls ≠ [])
    ∧ (∀ l, getTweetUrlsFromCache cache (jsTrim tweetUrl) now = some l →
        l ≠ []
        ∧ (jsTrim tweetUrl ≠ "" →
            handleTweetFetch cache tweetUrl now oI pR
              = ⟨l, cache, [FetchStrategy.cacheLookup]⟩)) := by
  constructor
  · by_cases htrim : jsTrim tweetUrl = ""
    · rw [handleTweetFetch_unfold, if_pos htrim]
      exact hinv
    · cases hget : getTweetUrlsFromCache cache (jsTrim tweetUrl) now with
      | some l =>
        have hl : l ≠ [] := getTweetUrlsFromCache_nonempty hget hinv
        rw [handleTweetFetch_hit htrim hget hl]
        exact hinv
      | none =>
        have hmiss : (getTweetUrlsFromCache cache
            (jsTrim tweetUrl) now).getD [] = [] := by
          rw [hget]; rfl
        rw [handleTweetFetch_miss htrim hmiss]
        have hcache := fetchNetwork_urlsCache cache (jsTrim tweetUrl) now oI pR
        by_cases hpos :
            (fetchNetwork cache (jsTrim tweetUrl) now oI pR).images.length > 0
        · rw [if_pos hpos] at hcache
          rw [hcache]
          intro e he
          rcases mem_putUrlsEntry he with he1 | he1
          · subst he1
            show (fetchNetwork cache (jsTrim tweetUrl) now oI pR).images ≠ []
            intro hc
            rw [hc] at hpos
            simp at hpos
          · exact hinv e he1
        · rw [if_neg hpos] at hcache
          rw [hcache]
          exact hinv
  · intro l hget
    refine ⟨getTweetUrlsFromCache_nonempty hget hinv, fun htrim => ?_⟩
    exact handleTweetFetch_hit htrim hget
      (getTweetUrlsFromCache_nonempty hget hinv)

/-- C10 witness: a one-entry cache holding a non-empty list; the invariant
is preserved and the hit short-circuits. -/
theorem c10_cache_nonempty_invariant_witness :
    (∀ e ∈ ([⟨"https://x.com/u/status/9",
        ["https://pbs.twimg.com/media/AAA?format=jpg&name=large"], 5⟩] :
          UrlsCache), e.imageUrls ≠ [])
    ∧ (∀ e ∈ (handleTweetFetch
        [⟨"https://x.com/u/status/9",
          ["https://pbs.twimg.com/media/AAA?format=jpg&name=large"], 5⟩]
        "https://x.com/u/status/9" 6 [] []).urlsCache, e.imageUrls ≠ []) :=
  ⟨by decide,
   (c10_cache_nonempty_invariant
     [⟨"https://x.com/u/status/9",
       ["https://pbs.twimg.com/media/AAA?format=jpg&name=large"], 5⟩]
     "https://x.com/u/status/9" 6 [] [] (by decide)).1⟩

/-! ### Helper lemmas for the media scanner (C6) -/

theorem mediaIdChar_isUrlChar {c : Char} (h : isMediaIdChar c = true) :
    isMediaUrlChar c = true := by
  simp [isMediaIdChar] at h
  simp [isMediaUrlChar, isJsWhitespace]
  omega

theorem mediaIdChar_ne_q {c : Char} (h : isMediaIdChar c = true) :
    (c != '?') = true := by
  simp [isMediaIdChar] at h
  simp only [bne_iff_ne, ne_eq]
  intro hc
  subst hc
  simp at h

theorem startsWithL_append_self : ∀ (p rest : List Char),
    startsWithL p (p ++ rest) = true := by
  intro p
  induction p with
  | nil => intro rest; rfl
  | cons x xs ih => intro rest; simp [startsWithL, ih]

theorem mediaMatchAt_pat (X : List Char) :
    mediaMatchAt (mediaPatS ++ X) = mediaMatchTail mediaPatS X := by
  unfold mediaMatchAt
  rw [if_pos (startsWithL_append_self mediaPatS X), List.drop_left]

theorem takeWhile_id_nil {suf rest : List Char}
    (hsufh : ∀ s0, suf.head? = some s0 → isMediaIdChar s0 = false)
    (hresth : ∀ r0, rest.head? = some r0 → isMediaUrlChar r0 = false) :
    (suf ++ rest).takeWhile isMediaIdChar = []
    ∧ (suf ++ rest).dropWhile isMediaIdChar = suf ++ rest := by
  cases suf with
  | cons s0 ss =>
    have h0 : isMediaIdChar s0 = false := hsufh s0 rfl
    constructor
    · rw [List.cons_append, List.takeWhile_cons_of_neg (by simp [h0])]
    · rw [List.cons_append, List.dropWhile_cons_of_neg (by simp [h0])]
  | nil =>
    cases rest with
    | nil => exact ⟨rfl, rfl⟩
    | cons r0 rs =>
      have hu : isMediaUrlChar r0 = false := hresth r0 rfl
      have h0 : isMediaIdChar r0 = false := by
        by_cases hi : isMediaIdChar r0 = true
        · rw [mediaIdChar_isUrlChar hi] at hu
          cases hu
        · simpa using hi
      constructor
      · rw [List.nil_append, List.takeWhile_cons_of_neg (by simp [h0])]
      · rw [List.nil_append, List.dropWhile_cons_of_neg (by simp [h0])]

theorem takeWhile_url_suf {suf rest : List Char}
    (hsuf : ∀ c ∈ suf, isMediaUrlChar c = true)
    (hresth : ∀ r0, rest.head? = some r0 → isMediaUrlChar r0 = false) :
    (suf ++ rest).takeWhile isMediaUrlChar = suf
    ∧ (suf ++ rest).dropWhile isMediaUrlChar = rest := by
  have htail : rest.takeWhile isMediaUrlChar = []
      ∧ rest.dropWhile isMediaUrlChar = rest := by
    cases rest with
    | nil => exact ⟨rfl, rfl⟩
    | cons r0 rs =>
      have hu : isMediaUrlChar r0 = false := hresth r0 rfl
      exact ⟨List.takeWhile_cons_of_neg (by simp [hu]),
        List.dropWhile_cons_of_neg (by simp [hu])⟩
  constructor
  · rw [List.takeWhile_append_of_pos hsuf, htail.1, List.append_nil]
  · rw [List.dropWhile_append_of_pos hsuf, htail.2]

theorem mediaMatchTail_eq (idp suf rest : List Char)
    (hid0 : idp ≠ []) (hid : ∀ c ∈ idp, isMediaIdChar c = true)
    (hsuf : ∀ c ∈ suf, isMediaUrlChar c = true)
    (hsufh : ∀ s0, suf.head? = some s0 → isMediaIdChar s0 = false)
    (hresth : ∀ r0, rest.head? = some r0 → isMediaUrlChar r0 = false) :
    mediaMatchTail mediaPatS (idp ++ (suf ++ rest))
      = some ((mediaPatS ++ idp) ++ suf, rest) := by
  have h1 := takeWhile_id_nil hsufh hresth
  have hrun1 : (idp ++ (suf ++ rest)).takeWhile isMediaIdChar = idp := by
    rw [List.takeWhile_append_of_pos hid, h1.1, List.append_nil]
  have hrest1 : (idp ++ (suf ++ rest)).dropWhile isMediaIdChar
      = suf ++ rest := by
    rw [List.dropWhile_append_of_pos hid, h1.2]
  have h2 := takeWhile_url_suf hsuf hresth
  have hne : idp.isEmpty = false := by
    cases idp with
    | nil => cases hid0 rfl
    | cons x xs => rfl
  simp only [mediaMatchTail]
  rw [hrun1, hrest1, h2.1, h2.2, if_neg (by simp [hne])]

theorem mediaScan_cons_some {c : Char} {cs m r : List Char}
    (h : mediaMatchAt (c :: cs) = some (m, r)) :
    mediaScan (c :: cs) = m.asString :: mediaScan r := by
  rw [mediaScan]
  rw [h]

theorem mediaScan_cons_none {c : Char} {cs : List Char}
    (h : mediaMatchAt (c :: cs) = none) :
    mediaScan (c :: cs) = mediaScan cs := by
  rw [mediaScan]
  rw [h]

theorem mediaScan_cons_some_ne {cs m r : List Char} (hne : cs ≠ [])
    (h : mediaMatchAt cs = some (m, r)) :
    mediaScan cs = m.asString :: mediaScan r := by
  cases cs with
  | nil => cases hne rfl
  | cons c cs' => exact mediaScan_cons_some h

theorem mediaMatchAt_none_of_head_ne_h {c : Char} (l : List Char)
    (h : ¬c = 'h') : mediaMatchAt (c :: l) = none := by
  have hc : ('h' == c) = false := beq_eq_false_iff_ne.mpr fun hc => h hc.symm
  have hS : startsWithL mediaPatS (c :: l) = false := by
    rw [show mediaPatS = 'h' :: "ttps://pbs.twimg.com/media/".data from by
      decide]
    simp [startsWithL, hc]
  have hH : startsWithL mediaPatH (c :: l) = false := by
    rw [show mediaPatH = 'h' :: "ttp://pbs.twimg.com/media/".data from by
      decide]
    simp [startsWithL, hc]
  unfold mediaMatchAt
  rw [hS, hH]
  rfl

theorem mediaScan_append_no_h {w : List Char} (h : ∀ c ∈ w, ¬c = 'h') :
    ∀ cs : List Char, mediaScan (w ++ cs) = mediaScan cs := by
  induction w with
  | nil => intro cs; rfl
  | cons x xs ih =>
    intro cs
    rw [List.cons_append,
      mediaScan_cons_none (mediaMatchAt_none_of_head_ne_h _ (h x (by simp))),
      ih (fun c hc => h c (by simp [hc]))]

theorem mediaMatchAt_none_https_example (l : List Char) :
    mediaMatchAt ('h' :: (['t', 't', 'p', 's', ':', '/', '/', 'e'] ++ l))
      = none := rfl

theorem mediaScan_media_step (idp suf rest : List Char)
    (hid0 : idp ≠ []) (hid : ∀ c ∈ idp, isMediaIdChar c = true)
    (hsuf : ∀ c ∈ suf, isMediaUrlChar c = true)
    (hsufh : ∀ s0, suf.head? = some s0 → isMediaIdChar s0 = false)
    (hresth : ∀ r0, rest.head? = some r0 → isMediaUrlChar r0 = false) :
    mediaScan (mediaPatS ++ (idp ++ (suf ++ rest)))
      = ((mediaPatS ++ idp) ++ suf).asString :: mediaScan rest := by
  have hm : mediaMatchAt (mediaPatS ++ (idp ++ (suf ++ rest)))
      = some ((mediaPatS ++ idp) ++ suf, rest) := by
    rw [mediaMatchAt_pat]
    exact mediaMatchTail_eq idp suf rest hid0 hid hsuf hsufh hresth
  exact mediaScan_cons_some_ne
    (List.append_ne_nil_of_left_ne_nil (by decide) _) hm

theorem mediaScan_nil : mediaScan [] = [] := by
  rw [mediaScan]

theorem mediaScan_media_last (idp : List Char) (hid0 : idp ≠ [])
    (hid : ∀ c ∈ idp, isMediaIdChar c = true) :
    mediaScan (mediaPatS ++ idp) = [(mediaPatS ++ idp).asString] := by
  have h := mediaScan_media_step idp [] [] hid0 hid
    (by intro c hc; cases hc) (by intro s0 hs; cases hs)
    (by intro r0 hr; cases hr)
  simpa [mediaScan_nil] using h

theorem setDedup_pair {m1 m2 : String} (h : m1 ≠ m2) :
    setDedup [m1, m2] = [m1, m2] := by
  simp [setDedup, setDedupAux, Ne.symm h]

theorem data_asString (l : List Char) : l.asString.data = l := rfl

theorem takeWhile_eq_self_of_all {p : Char → Bool} :
    ∀ {l : List Char}, (∀ c ∈ l, p c = true) → l.takeWhile p = l := by
  intro l
  induction l with
  | nil => intro _; rfl
  | cons x xs ih =>
    intro h
    rw [List.takeWhile_cons_of_pos (h x (by simp)),
      ih (fun c hc => h c (by simp [hc]))]

theorem pat_ne_q : ∀ c ∈ mediaPatS, (c != '?') = true := by
  decide

theorem cleanUrl_media_query (idp : List Char)
    (hid : ∀ c ∈ idp, isMediaIdChar c = true) :
    cleanUrl (((mediaPatS ++ idp) ++ "?format=jpg&name=small".data).asString)
      = (mediaPatS ++ idp).asString := by
  unfold cleanUrl
  rw [data_asString]
  have hall : ∀ c ∈ mediaPatS ++ idp, (c != '?') = true := by
    intro c hc
    rcases List.mem_append.mp hc with h1 | h1
    · exact pat_ne_q c h1
    · exact mediaIdChar_ne_q (hid c h1)
  rw [List.takeWhile_append_of_pos hall,
    show ("?format=jpg&name=small".data.takeWhile (fun c => c != '?')) = []
      from by decide,
    List.append_nil]

theorem cleanUrl_media_plain (idp : List Char)
    (hid : ∀ c ∈ idp, isMediaIdChar c = true) :
    cleanUrl ((mediaPatS ++ idp).asString) = (mediaPatS ++ idp).asString := by
  unfold cleanUrl
  rw [data_asString]
  rw [takeWhile_eq_self_of_all (by
    intro c hc
    rcases List.mem_append.mp hc with h1 | h1
    · exact pat_ne_q c h1
    · exact mediaIdChar_ne_q (hid c h1))]

/-- C6: applying the proxy extraction to a text holding a media URL for id
`a` with query parameters, a non-matching URL, and a bare media URL for a
distinct id `b` yields exactly the two matching URLs, in first-occurrence
order, deduplicated, each stripped of its query parameters and given the
canonical large-format suffix. -/
theorem c6_media_extraction (a b : String)
    (ha0 : a.data ≠ []) (ha : ∀ c ∈ a.data, isMediaIdChar c = true)
    (hb0 : b.data ≠ []) (hb : ∀ c ∈ b.data, isMediaIdChar c = true)
    (hab : a ≠ b) :
    fetchTweetImagesViaProxy
      [some ("img https://pbs.twimg.com/media/" ++ a ++
        "?format=jpg&name=small see https://example.com/pic.png and https://pbs.twimg.com/media/"
        ++ b)]
      = ["https://pbs.twimg.com/media/" ++ a ++ "?format=jpg&name=large",
         "https://pbs.twimg.com/media/" ++ b ++ "?format=jpg&name=large"] := by
  have ht : ("img https://pbs.twimg.com/media/" ++ a ++
      "?format=jpg&name=small see https://example.com/pic.png and https://pbs.twimg.com/media/"
      ++ b).data
      = "img ".data ++ (mediaPatS ++ (a.data ++
          ("?format=jpg&name=small".data ++
            (" see ".data ++
              ('h' :: ("ttps://e".data ++
                ("xample.com/pic.png and ".data ++
                  (mediaPatS ++ b.data)))))))) := by
    simp [mediaPatS, List.append_assoc]
  have hscan : mediaScan ("img https://pbs.twimg.com/media/" ++ a ++
      "?format=jpg&name=small see https://example.com/pic.png and https://pbs.twimg.com/media/"
      ++ b).data
      = [((mediaPatS ++ a.data) ++ "?format=jpg&name=small".data).asString,
         (mediaPatS ++ b.data).asString] := by
    rw [ht,
      mediaScan_append_no_h (show ∀ c ∈ "img ".data, ¬c = 'h' from by decide),
      mediaScan_media_step a.data "?format=jpg&name=small".data _ ha0 ha
        (by decide)
        (by
          intro s0 hs
          cases (show some ('?' : Char) = some s0 from hs)
          decide)
        (by
          intro r0 hr
          cases (show some (' ' : Char) = some r0 from hr)
          decide),
      mediaScan_append_no_h (show ∀ c ∈ " see ".data, ¬c = 'h' from by
        decide),
      mediaScan_cons_none (mediaMatchAt_none_https_example _),
      mediaScan_append_no_h (show ∀ c ∈ "ttps://e".data, ¬c = 'h' from by
        decide),
      mediaScan_append_no_h
        (show ∀ c ∈ "xample.com/pic.png and ".data, ¬c = 'h' from by decide),
      mediaScan_media_last b.data hb0 hb]
  have hne12 : ((mediaPatS ++ a.data) ++ "?format=jpg&name=small".data).asString
      ≠ (mediaPatS ++ b.data).asString := by
    intro he
    have hd := congrArg String.data he
    rw [data_asString, data_asString] at hd
    have hq1 : ('?' : Char) ∈ (mediaPatS ++ a.data) ++
        "?format=jpg&name=small".data :=
      List.mem_append.mpr (Or.inr (by decide))
    rw [hd] at hq1
    rcases List.mem_append.mp hq1 with h1 | h1
    · exact absurd (pat_ne_q _ h1) (by decide)
    · have h2 := mediaIdChar_ne_q (hb _ h1)
      simp at h2
  show (if (setDedup (mediaScan _)).length > 0
    then (setDedup (mediaScan _)).map formatLarge
    else fetchTweetImagesViaProxy []) = _
  rw [hscan, setDedup_pair hne12]
  rw [if_pos (by simp)]
  show [formatLarge _, formatLarge _] = _
  unfold formatLarge
  rw [cleanUrl_media_query a.data ha, cleanUrl_media_plain b.data hb]
  rfl

/-- C6 witness: the extraction at the concrete media ids "AbC123" and
"XyZ789". -/
theorem c6_media_extraction_witness :
    (("AbC123" : String).data ≠ []
     ∧ (∀ c ∈ ("AbC123" : String).data, isMediaIdChar c = true)
     ∧ ("XyZ789" : String).data ≠ []
     ∧ (∀ c ∈ ("XyZ789" : String).data, isMediaIdChar c = true)
     ∧ ("AbC123" : String) ≠ "XyZ789")
    ∧ fetchTweetImagesViaProxy
        [some ("img https://pbs.twimg.com/media/" ++ "AbC123" ++
          "?format=jpg&name=small see https://example.com/pic.png and https://pbs.twimg.com/media/"
          ++ "XyZ789")]
        = ["https://pbs.twimg.com/media/" ++ "AbC123" ++
            "?format=jpg&name=large",
           "https://pbs.twimg.com/media/" ++ "XyZ789" ++
            "?format=jpg&name=large"] :=
  ⟨⟨by decide, by decide, by decide, by decide, by decide⟩,
   c6_media_extraction "AbC123" "XyZ789" (by decide) (by decide) (by decide)
     (by decide) (by decide)⟩

end Promptober
